import Mathlib

/-!
Verification of the fedwatch ML-analysis core: a shallow embedding of the
feature-engineering, correlation-ranking, train/test-split, scaling and
backtesting logic of `src/ml_analysis`, with theorems settling the frozen
claims about it.

Data columns are modelled as `List (Option ℚ)`: `none` is a missing value
(pandas `NaN`), `some q` a present value.  All pandas/numpy operations used
by the claims are translated element-wise from the source.
-/

namespace FedWatch

/-- A time-series column: one optional rational per row, `none` = NaN. -/
abbrev Series := List (Option ℚ)

/-- pandas `Series.shift(k)`: row `i` of the result holds row `i - k` of the
input when `i ≥ k`, and is missing for the first `k` rows. -/
def shift (k : Nat) (s : Series) : Series :=
  (List.range s.length).map (fun i => if i < k then none else s.getD (i - k) none)

/-- `add_lag_features` (enhanced_correlation_analysis.py line 29) appends, for a
liquidity column and a lag expressed in weeks, the column shifted by `lag * 5`
rows (5 trading days = 1 week).  This is the single appended column. -/
def add_lag_features (s : Series) (lagWeeks : Nat) : Series :=
  shift (lagWeeks * 5) s

theorem shift_length (k : Nat) (s : Series) : (shift k s).length = s.length := by
  simp [shift]

theorem shift_getD (k : Nat) (s : Series) (i : Nat) (hi : i < s.length) :
    (shift k s).getD i none = if i < k then none else s.getD (i - k) none := by
  unfold shift
  rw [List.getD_eq_getElem?_getD, List.getElem?_map, List.getElem?_range hi]
  rfl

/-- C1: the lag feature at row `i` equals the source column at row `i - lag*5`
when `i ≥ lag*5` and is missing otherwise; and it depends only on rows `≤ i`
of the source: overwriting any row `j > i` leaves the lag value at `i`
unchanged. -/
theorem add_lag_features_no_lookahead (s : Series) (lag i j : Nat) (v : Option ℚ)
    (hi : i < s.length) (hij : i < j) :
    (add_lag_features s lag).getD i none =
      (if i < lag * 5 then none else s.getD (i - lag * 5) none) ∧
    (add_lag_features (s.set j v) lag).getD i none =
      (add_lag_features s lag).getD i none := by
  constructor
  · exact shift_getD (lag * 5) s i hi
  · have hlen : (s.set j v).length = s.length := s.length_set j v
    rw [add_lag_features, add_lag_features, shift_getD _ _ i (hlen ▸ hi), shift_getD _ _ i hi]
    by_cases h : i < lag * 5
    · simp [h]
    · have hne : j ≠ i - lag * 5 := by omega
      simp [h, List.getD_eq_getElem?_getD, List.getElem?_set_ne hne]

/-- Witness for C1 at a concrete input: a 6-row series, lag 1 week, row 5,
future row 6 overwritten. -/
theorem add_lag_features_no_lookahead_witness :
    (5 < ([some 10, some 20, some 30, some 40, some 50, some 60] : Series).length ∧ 5 < 6) ∧
    ((add_lag_features [some 10, some 20, some 30, some 40, some 50, some 60] 1).getD 5 none =
      (if 5 < 1 * 5 then none
       else ([some 10, some 20, some 30, some 40, some 50, some 60] : Series).getD (5 - 1 * 5) none) ∧
     (add_lag_features (([some 10, some 20, some 30, some 40, some 50, some 60] : Series).set 6
        (some 99)) 1).getD 5 none =
      (add_lag_features [some 10, some 20, some 30, some 40, some 50, some 60] 1).getD 5 none) :=
  ⟨⟨by decide, by decide⟩,
   add_lag_features_no_lookahead [some 10, some 20, some 30, some 40, some 50, some 60]
     1 5 6 (some 99) (by decide) (by decide)⟩

/-! ### Train/test split (liquidity_ml_analyzer.py lines 200-202,
advanced_liquidity_analysis.py lines 120-122) -/

/-- Floor of the base-2 logarithm, for `1 ≤ n < 2^128`, by bounded scan. -/
def floorLog2 (n : ℕ) : ℕ :=
  (List.range 128).foldl (fun acc k => if 2 ^ (k + 1) ≤ n then k + 1 else acc) 0

/-- `int(len(X) * 0.7)` as the source computes it in IEEE-754 double
arithmetic.  The double nearest `0.7` is `3152519739159347 / 2^52`; the row
count `n` converts exactly to double (`n < 2^53`), so the exact product is
`a / 2^52` with `a = n * 3152519739159347`.  The hardware rounds `a` to 53
significant bits with ties to even (`s` is the number of excess bits, `m` the
rounded significand), and `int(...)` then truncates the nonnegative result
toward zero, i.e. floors `m * 2^s / 2^52`. -/
def split_idx (n : ℕ) : ℕ :=
  let a := n * 3152519739159347
  let L := floorLog2 a
  let s := L - 52
  let q := a / 2 ^ s
  let r := a % 2 ^ s
  let m := if 2 * r < 2 ^ s then q
           else if 2 ^ s < 2 * r then q + 1
           else if q % 2 = 0 then q else q + 1
  m * 2 ^ s / 2 ^ 52

/-- `X[:split_idx], X[split_idx:]`: the chronological 70/30 split. -/
def train_test_split (X : List α) : List α × List α :=
  (X.take (split_idx X.length), X.drop (split_idx X.length))

/-- C2 counterexample: at `n = 90` rows the code's split index is
`int(90 * 0.7) = 62` (the double product is just below 63), while the claimed
`floor(n * 0.7)` is 63, so the training set is not the first `floor(n*0.7)`
rows. -/
theorem train_test_split_not_floor_counterexample :
    split_idx 90 = 62 ∧ ⌊(90 : ℚ) * (7/10)⌋ = 63 ∧
    (train_test_split (List.range 90)).1.length = 62 := by
  refine ⟨by decide, ?_, by decide⟩
  have h : (90 : ℚ) * (7/10) = ((63 : ℤ) : ℚ) := by norm_num
  rw [h, Int.floor_intCast]

/-- C2 (amended): with `k = split_idx n` — the float-truncated 70% index, which
can be one less than `floor(n*0.7)` — the training set is exactly the first `k`
rows in their existing order, the test set exactly the remaining rows in order,
with no shuffling, and every training row index is strictly less than every
test row index. -/
theorem train_test_split_chronological (X : List α) (i j : ℕ)
    (hi : i < (train_test_split X).1.length) (hj : j < (train_test_split X).2.length) :
    (train_test_split X).1 ++ (train_test_split X).2 = X ∧
    (train_test_split X).1 = X.take (split_idx X.length) ∧
    (train_test_split X).2 = X.drop (split_idx X.length) ∧
    (train_test_split X).1[i]? = X[i]? ∧
    (train_test_split X).2[j]? = X[split_idx X.length + j]? ∧
    i < split_idx X.length + j := by
  have hik : i < split_idx X.length := by
    have := hi
    simp only [train_test_split, List.length_take, lt_min_iff] at this
    exact this.1
  refine ⟨List.take_append_drop _ _, rfl, rfl, ?_, ?_, by omega⟩
  · rw [train_test_split, List.getElem?_take, if_pos hik]
  · exact List.getElem?_drop _ _ _

/-- Witness for C2's amended theorem on a concrete 10-row input
(`split_idx 10 = 7`). -/
theorem train_test_split_chronological_witness :
    (0 < (train_test_split (List.range 10)).1.length ∧
     0 < (train_test_split (List.range 10)).2.length) ∧
    ((train_test_split (List.range 10)).1 ++ (train_test_split (List.range 10)).2 =
        List.range 10 ∧
     (train_test_split (List.range 10)).1 = (List.range 10).take (split_idx 10) ∧
     (train_test_split (List.range 10)).2 = (List.range 10).drop (split_idx 10) ∧
     (train_test_split (List.range 10)).1[0]? = (List.range 10)[0]? ∧
     (train_test_split (List.range 10)).2[0]? = (List.range 10)[split_idx 10 + 0]? ∧
     0 < split_idx 10 + 0) :=
  ⟨⟨by decide, by decide⟩, by
    have h := train_test_split_chronological (List.range 10) 0 0 (by decide) (by decide)
    simpa using h⟩

/-! ### Feature scaling (liquidity_ml_analyzer.py lines 204-206,
advanced_liquidity_analysis.py lines 125-127) -/

/-- Column `j` of a row-major feature matrix. -/
def column (X : List (List ℚ)) (j : ℕ) : List ℚ := X.map (fun r => r.getD j 0)

/-- Mean of a list of rationals (`0` for the empty list). -/
def mean (l : List ℚ) : ℚ := l.sum / l.length

/-- sklearn `StandardScaler` state after `fit`: per-feature mean `mean_` and
biased variance `var_`. -/
structure Scaler where
  means : List ℚ
  vars : List ℚ
deriving DecidableEq

/-- `StandardScaler.fit` on a row-major matrix: per-column mean and biased
(ddof = 0) variance. -/
def fitScaler (X : List (List ℚ)) : Scaler :=
  let d := (X.headD []).length
  { means := (List.range d).map fun j => mean (column X j)
    vars := (List.range d).map fun j =>
      mean ((column X j).map fun x => (x - mean (column X j)) ^ 2) }

/-- `StandardScaler.transform`: per feature, subtract the fitted mean and
divide by `scale_ = sqrt(var_)` (a zero variance gives `scale_ = 1`). -/
noncomputable def transformScaled (p : Scaler) (row : List ℚ) : List ℝ :=
  (List.range p.means.length).map fun j =>
    ((row.getD j 0 : ℝ) - (p.means.getD j 0 : ℝ)) /
      (if p.vars.getD j 0 = 0 then 1 else Real.sqrt (p.vars.getD j 0 : ℝ))

/-- The scaler `train_model` fits: `self.scaler.fit_transform(X_train)` with
`X_train = X[:split_idx]`; the same fitted object then transforms `X_test`. -/
def train_model_scaler (X : List (List ℚ)) : Scaler :=
  fitScaler (train_test_split X).1

/-- C3: the standardization parameters used on the test set are computed from
the training subset only — two inputs agreeing on their training rows yield
identical fitted parameters and an identical transform on every test row. -/
theorem scaler_fit_on_train_only (X Y : List (List ℚ))
    (htrain : X.take (split_idx X.length) = Y.take (split_idx Y.length)) :
    train_model_scaler X = train_model_scaler Y ∧
    ∀ row : List ℚ, transformScaled (train_model_scaler X) row =
      transformScaled (train_model_scaler Y) row := by
  have h : train_model_scaler X = train_model_scaler Y := by
    unfold train_model_scaler train_test_split
    rw [htrain]
  exact ⟨h, fun row => by rw [h]⟩

/-- Witness for C3: three rows, `split_idx 3 = 2`, the inputs agree on the two
training rows and differ on the test row. -/
theorem scaler_fit_on_train_only_witness :
    (([[1], [2], [30]] : List (List ℚ)).take (split_idx 3) =
      ([[1], [2], [-500]] : List (List ℚ)).take (split_idx 3)) ∧
    (train_model_scaler [[1], [2], [30]] = train_model_scaler [[1], [2], [-500]] ∧
     ∀ row : List ℚ, transformScaled (train_model_scaler [[1], [2], [30]]) row =
       transformScaled (train_model_scaler [[1], [2], [-500]]) row) :=
  ⟨by decide, by
    have h := scaler_fit_on_train_only [[1], [2], [30]] [[1], [2], [-500]] (by decide)
    simpa using h⟩

/-! ### Backtest compounding and signals (liquidity_ml_analyzer.py
lines 259-271) -/

/-- pandas `Series.cumprod` with running accumulator. -/
def cumprodAux (acc : ℚ) : List ℚ → List ℚ
  | [] => []
  | x :: xs => (acc * x) :: cumprodAux (acc * x) xs

/-- pandas `Series.cumprod`. -/
def cumprod (l : List ℚ) : List ℚ := cumprodAux 1 l

/-- `(1 + returns / 100).cumprod()` — the cumulative compounded value series,
used both for buy-and-hold (`weekly_return`) and for the strategy
(`strategy_return`). -/
def cumulative_return (returns : List ℚ) : List ℚ :=
  cumprod (returns.map (fun r => 1 + r / 100))

theorem cumprodAux_getD (acc : ℚ) (l : List ℚ) (k : ℕ) (hk : k < l.length) :
    (cumprodAux acc l).getD k 0 = acc * (l.take (k + 1)).prod := by
  induction l generalizing acc k with
  | nil => simp at hk
  | cons x xs ih =>
    cases k with
    | zero => simp [cumprodAux]
    | succ k =>
      have hk' : k < xs.length := by simpa using hk
      simp only [cumprodAux, List.getD_cons_succ, List.take_succ_cons, List.prod_cons,
        ih (acc * x) k hk']
      ring

/-- C4: the cumulative value after `k + 1` rows is the product of
`(1 + r_i/100)` over the first `k + 1` per-row returns (the implicit start
value being 1), and an all-zero return series keeps the value at 1 on every
row.  The identity applies to buy-and-hold and strategy series alike, both
being computed by `cumulative_return`. -/
theorem backtest_compounding_identity (returns : List ℚ) (k : ℕ)
    (hk : k < returns.length) :
    (cumulative_return returns).getD k 0 =
      ((returns.take (k + 1)).map (fun r => 1 + r / 100)).prod ∧
    ((∀ r ∈ returns, r = 0) → (cumulative_return returns).getD k 0 = 1) := by
  have hlen : k < (returns.map (fun r => 1 + r / 100)).length := by simpa using hk
  have hmain : (cumulative_return returns).getD k 0 =
      ((returns.take (k + 1)).map (fun r => 1 + r / 100)).prod := by
    rw [cumulative_return, cumprod, cumprodAux_getD _ _ _ hlen, one_mul, List.map_take]
  refine ⟨hmain, fun hz => ?_⟩
  rw [hmain]
  have : ∀ q ∈ (returns.take (k + 1)).map (fun r => 1 + r / 100), q = 1 := by
    intro q hq
    obtain ⟨r, hr, rfl⟩ := List.mem_map.1 hq
    rw [hz r (List.mem_of_mem_take hr)]
    norm_num
  rw [List.prod_eq_one this]

/-- Witness for C4 on the concrete series `[2, 0, 3, 0, 1]` at row 4, plus the
all-zero case on `[0, 0, 0]` at row 2. -/
theorem backtest_compounding_identity_witness :
    (4 < ([2, 0, 3, 0, 1] : List ℚ).length ∧
     (cumulative_return [2, 0, 3, 0, 1]).getD 4 0 =
       ((([2, 0, 3, 0, 1] : List ℚ).take 5).map (fun r => 1 + r / 100)).prod) ∧
    (2 < ([0, 0, 0] : List ℚ).length ∧
     (cumulative_return [0, 0, 0]).getD 2 0 = 1) :=
  ⟨⟨by decide, (backtest_compounding_identity [2, 0, 3, 0, 1] 4 (by decide)).1⟩,
   ⟨by decide, (backtest_compounding_identity [0, 0, 0] 2 (by decide)).2 (by decide)⟩⟩

/-- `(predictions > 0.5)` mapped through `{1: 'LONG', 0: 'CASH'}`
(lines 260-261). -/
def backtest_signal (probs : List ℚ) : List String :=
  probs.map fun p => if 1/2 < p then "LONG" else "CASH"

/-- `np.where(prediction == 1, weekly_return, 0)` (lines 264-268). -/
def strategy_return (probs weekly : List ℚ) : List ℚ :=
  List.zipWith (fun p w => if 1/2 < p then w else 0) probs weekly

/-- C5: the signal is LONG exactly when the predicted probability is strictly
above 0.5, CASH otherwise; the per-row strategy return is the realized weekly
return under LONG and 0 under CASH; and on the spec's concrete scenario the
strategy returns, cumulative strategy value and buy-and-hold value come out as
claimed. -/
theorem backtest_signal_rule (probs weekly : List ℚ) (i : ℕ)
    (hi : i < probs.length) (hw : i < weekly.length) :
    ((backtest_signal probs).getD i "" = "LONG" ↔ 1/2 < probs.getD i 0) ∧
    ((backtest_signal probs).getD i "" = "CASH" ↔ ¬ 1/2 < probs.getD i 0) ∧
    ((strategy_return probs weekly).getD i 0 =
      if 1/2 < probs.getD i 0 then weekly.getD i 0 else 0) ∧
    backtest_signal [3/5, 2/5, 3/5, 2/5, 3/5] =
      ["LONG", "CASH", "LONG", "CASH", "LONG"] ∧
    strategy_return [3/5, 2/5, 3/5, 2/5, 3/5] [2, -1, 3, -2, 1] = [2, 0, 3, 0, 1] ∧
    (cumulative_return [2, 0, 3, 0, 1]).getD 4 0 =
      (102/100) * (100/100) * (103/100) * (100/100) * (101/100) ∧
    (cumulative_return [2, -1, 3, -2, 1]).getD 4 0 =
      (102/100) * (99/100) * (103/100) * (98/100) * (101/100) := by
  have hp : probs[i]? = some probs[i] := List.getElem?_eq_getElem hi
  have hwv : weekly[i]? = some weekly[i] := List.getElem?_eq_getElem hw
  have hsig : (backtest_signal probs).getD i "" =
      if 1/2 < probs.getD i 0 then "LONG" else "CASH" := by
    simp [backtest_signal, List.getD_eq_getElem?_getD, List.getElem?_map, hp]
  have hstrat : (strategy_return probs weekly).getD i 0 =
      if 1/2 < probs.getD i 0 then weekly.getD i 0 else 0 := by
    simp [strategy_return, List.getD_eq_getElem?_getD, List.getElem?_zipWith, hp, hwv]
  refine ⟨?_, ?_, hstrat, by norm_num [backtest_signal], by norm_num [strategy_return],
    by norm_num [cumulative_return, cumprod, cumprodAux],
    by norm_num [cumulative_return, cumprod, cumprodAux]⟩
  · rw [hsig]
    by_cases h : 1/2 < probs.getD i 0 <;> simp [h]
  · rw [hsig]
    by_cases h : 1/2 < probs.getD i 0 <;> simp [h]

/-- Witness for C5 at row 0 of the scenario inputs. -/
theorem backtest_signal_rule_witness :
    (0 < ([3/5, 2/5, 3/5, 2/5, 3/5] : List ℚ).length ∧
     0 < ([2, -1, 3, -2, 1] : List ℚ).length) ∧
    ((backtest_signal [3/5, 2/5, 3/5, 2/5, 3/5]).getD 0 "" = "LONG" ↔
      1/2 < ([3/5, 2/5, 3/5, 2/5, 3/5] : List ℚ).getD 0 0) ∧
    ((backtest_signal [3/5, 2/5, 3/5, 2/5, 3/5]).getD 0 "" = "CASH" ↔
      ¬ 1/2 < ([3/5, 2/5, 3/5, 2/5, 3/5] : List ℚ).getD 0 0) ∧
    ((strategy_return [3/5, 2/5, 3/5, 2/5, 3/5] [2, -1, 3, -2, 1]).getD 0 0 =
      if 1/2 < ([3/5, 2/5, 3/5, 2/5, 3/5] : List ℚ).getD 0 0 then
        ([2, -1, 3, -2, 1] : List ℚ).getD 0 0 else 0) ∧
    backtest_signal [3/5, 2/5, 3/5, 2/5, 3/5] =
      ["LONG", "CASH", "LONG", "CASH", "LONG"] ∧
    strategy_return [3/5, 2/5, 3/5, 2/5, 3/5] [2, -1, 3, -2, 1] = [2, 0, 3, 0, 1] ∧
    (cumulative_return [2, 0, 3, 0, 1]).getD 4 0 =
      (102/100) * (100/100) * (103/100) * (100/100) * (101/100) ∧
    (cumulative_return [2, -1, 3, -2, 1]).getD 4 0 =
      (102/100) * (99/100) * (103/100) * (98/100) * (101/100) :=
  ⟨⟨by decide, by decide⟩,
   backtest_signal_rule [3/5, 2/5, 3/5, 2/5, 3/5] [2, -1, 3, -2, 1] 0
     (by decide) (by decide)⟩

/-! ### Correlation-ranking sample guards (enhanced_correlation_analysis.py
lines 104-110 and 144-149, liquidity_ml_analyzer.py lines 125-131) -/

/-- `df[[col, target]].dropna()`: the rows where both series are observed. -/
def overlap (xs ys : Series) : List (ℚ × ℚ) :=
  (xs.zip ys).filterMap fun p =>
    match p with
    | (some a, some b) => some (a, b)
    | _ => none

/-- Sum of squared deviations from the mean. -/
def ssd (l : List ℚ) : ℚ := (l.map fun x => (x - mean l) ^ 2).sum

/-- Whether the Pearson correlation of a paired sample is finite: pandas
`Series.corr` yields NaN exactly when a marginal sum of squared deviations
vanishes (constant or empty series), which is what `np.isnan(corr)` tests. -/
def corrDefined (ps : List (ℚ × ℚ)) : Bool :=
  if ssd (ps.map Prod.fst) = 0 ∨ ssd (ps.map Prod.snd) = 0 then false else true

/-- One ranking loop (e.g. `analyze_lagged_correlations`, lines 104-110): a
candidate column enters the ranked output iff `len(temp_df) > minN` — note
strictly greater — and its correlation is not NaN. `minN` is 30 for the
lag/velocity ranking, 20 for the regime-conditioned ranking, 10 for the coarse
pass in `analyze_correlations`. -/
def ranking_features (cols : List (String × Series)) (target : Series)
    (minN : ℕ) : List String :=
  cols.filterMap fun c =>
    let ps := overlap c.2 target
    if minN < ps.length then
      if corrDefined ps then some c.1 else none
    else none

theorem ssd_eq_zero_of_const (l : List ℚ) (c : ℚ) (h : ∀ x ∈ l, x = c) :
    ssd l = 0 := by
  rcases l with _ | ⟨a, as⟩
  · simp [ssd]
  · have hmean : mean (a :: as) = c := by
      have hsum : (a :: as).sum = (a :: as).length • c := List.sum_eq_card_nsmul _ c h
      have hlen : ((a :: as).length : ℚ) ≠ 0 := by
        have : (0:ℚ) < ((a :: as).length : ℚ) := by exact_mod_cast Nat.succ_pos as.length
        exact ne_of_gt this
      rw [mean, hsum, nsmul_eq_mul, mul_comm, mul_div_assoc, div_self hlen, mul_one]
    apply List.sum_eq_zero
    intro x hx
    obtain ⟨y, hy, rfl⟩ := List.mem_map.1 hx
    rw [h y hy, hmean]
    ring

/-- C6 (amended): a feature appears in a ranking iff its overlap with the
target has strictly more than the floor (so ≥ 31 / 21 / 11 rows for the
floors 30 / 20 / 10) and its correlation is defined; a feature with only 8
overlapping observations is excluded from the 10-floor pass; and a constant
feature (NaN correlation) never appears in the output — the guard skips it
rather than failing. -/
theorem ranking_membership (cols : List (String × Series)) (name : String)
    (s t : Series) (minN : ℕ) :
    (name ∈ ranking_features cols t minN ↔
      ∃ u, (name, u) ∈ cols ∧ minN < (overlap u t).length ∧
        corrDefined (overlap u t) = true) ∧
    ((overlap s t).length = 8 → name ∉ ranking_features [(name, s)] t 10) ∧
    ((∃ c, ∀ p ∈ overlap s t, p.1 = c) →
      name ∉ ranking_features [(name, s)] t minN) := by
  have hmem : ∀ (cs : List (String × Series)) (m : ℕ),
      name ∈ ranking_features cs t m ↔
        ∃ u, (name, u) ∈ cs ∧ m < (overlap u t).length ∧
          corrDefined (overlap u t) = true := by
    intro cs m
    rw [ranking_features, List.mem_filterMap]
    constructor
    · rintro ⟨⟨n, u⟩, hin, hf⟩
      dsimp only at hf
      split_ifs at hf with h1 h2
      obtain rfl : n = name := by simpa using hf
      exact ⟨u, hin, h1, h2⟩
    · rintro ⟨u, hin, h1, h2⟩
      exact ⟨(name, u), hin, by simp [h1, h2]⟩
  refine ⟨hmem cols minN, ?_, ?_⟩
  · intro h8 hcontra
    obtain ⟨u, hu, hlen, _⟩ := (hmem [(name, s)] 10).1 hcontra
    have hus : u = s := by simpa using hu
    rw [hus, h8] at hlen
    omega
  · rintro ⟨c, hc⟩ hcontra
    obtain ⟨u, hu, _, hdef⟩ := (hmem [(name, s)] minN).1 hcontra
    have hus : u = s := by simpa using hu
    rw [hus] at hdef
    have hfalse : corrDefined (overlap s t) = false := by
      rw [corrDefined, if_pos]
      left
      exact ssd_eq_zero_of_const _ c (by
        intro x hx
        obtain ⟨p, hp, rfl⟩ := List.mem_map.1 hx
        exact hc p hp)
    rw [hfalse] at hdef
    exact absurd hdef (by simp)

/-- C6 counterexample: a fully observed 10-row feature `[1,…,10]` against the
identical target has exactly 10 overlapping observations and a defined
(perfect) correlation, so the claim's "at least 10 ⇒ ranked" puts it in the
coarse pass's output — but the code requires `len(temp_df) > 10` and excludes
it. -/
theorem ranking_membership_counterexample :
    (overlap [some 1, some 2, some 3, some 4, some 5, some 6, some 7, some 8, some 9, some 10]
        [some 1, some 2, some 3, some 4, some 5, some 6, some 7, some 8, some 9,
          some 10]).length = 10 ∧
    corrDefined (overlap
        [some 1, some 2, some 3, some 4, some 5, some 6, some 7, some 8, some 9, some 10]
        [some 1, some 2, some 3, some 4, some 5, some 6, some 7, some 8, some 9,
          some 10]) = true ∧
    ranking_features
        [("net_liquidity",
          [some 1, some 2, some 3, some 4, some 5, some 6, some 7, some 8, some 9, some 10])]
        [some 1, some 2, some 3, some 4, some 5, some 6, some 7, some 8, some 9, some 10]
        10 = [] := by
  have hov : overlap
      [some 1, some 2, some 3, some 4, some 5, some 6, some 7, some 8, some 9, some 10]
      [some 1, some 2, some 3, some 4, some 5, some 6, some 7, some 8, some 9, some 10] =
      ([(1, 1), (2, 2), (3, 3), (4, 4), (5, 5), (6, 6), (7, 7), (8, 8), (9, 9), (10, 10)] :
        List (ℚ × ℚ)) := by
    rfl
  refine ⟨by rw [hov]; rfl, ?_, ?_⟩
  · rw [hov, corrDefined, if_neg]
    push_neg
    constructor <;> norm_num [ssd, mean]
  · rw [ranking_features]
    simp only [List.filterMap_cons, List.filterMap_nil]
    rw [hov]
    norm_num

/-- Witness for C6's amended theorem: the exactly-8-row overlap exclusion and
the constant-series exclusion, at the spec's concrete inputs. -/
theorem ranking_membership_witness :
    ((overlap [some 1, some 2, some 3, some 4, some 5, some 6, some 7, some 8]
        [some 1, some 2, some 3, some 4, some 5, some 6, some 7, some 8]).length = 8 ∧
      "tga_value" ∉ ranking_features
        [("tga_value", [some 1, some 2, some 3, some 4, some 5, some 6, some 7, some 8])]
        [some 1, some 2, some 3, some 4, some 5, some 6, some 7, some 8] 10) ∧
    ((∀ p ∈ overlap
        [some 10, some 10, some 10, some 10, some 10, some 10, some 10, some 10]
        [some 1, some 2, some 3, some 4, some 5, some 6, some 7, some 8], p.1 = (10 : ℚ)) ∧
      "net_liquidity" ∉ ranking_features
        [("net_liquidity",
          [some 10, some 10, some 10, some 10, some 10, some 10, some 10, some 10])]
        [some 1, some 2, some 3, some 4, some 5, some 6, some 7, some 8] 30) := by
  have h8 : (overlap [some 1, some 2, some 3, some 4, some 5, some 6, some 7, some 8]
      [some 1, some 2, some 3, some 4, some 5, some 6, some 7, some 8]).length = 8 := by
    rfl
  have hconst : ∀ p ∈ overlap
      [some 10, some 10, some 10, some 10, some 10, some 10, some 10, some 10]
      [some 1, some 2, some 3, some 4, some 5, some 6, some 7, some 8], p.1 = (10 : ℚ) := by
    have hov : overlap
        [some 10, some 10, some 10, some 10, some 10, some 10, some 10, some 10]
        [some 1, some 2, some 3, some 4, some 5, some 6, some 7, some 8] =
        ([(10, 1), (10, 2), (10, 3), (10, 4), (10, 5), (10, 6), (10, 7), (10, 8)] :
          List (ℚ × ℚ)) := rfl
    rw [hov]
    intro p hp
    fin_cases hp <;> rfl
  exact ⟨⟨h8, (ranking_membership [] "tga_value" _ _ 10).2.1 h8⟩,
    ⟨hconst, (ranking_membership [] "net_liquidity" _ _ 30).2.2 ⟨10, hconst⟩⟩⟩

/-! ### Market regime identification (enhanced_correlation_analysis.py
lines 72-76) -/

/-- pandas `Series.rolling(n).mean()` with the default `min_periods = n`:
defined at row `i` only when a full trailing window of `n` observed rows
exists; any missing value inside the window makes the result missing. -/
def rolling_mean (n : ℕ) (s : Series) : Series :=
  (List.range s.length).map fun i =>
    if n ≤ i + 1 then
      let w := ((s.drop (i + 1 - n)).take n).filterMap id
      if w.length = n then some (w.sum / n) else none
    else none

/-- `df['regime'] = np.where(df['close'] > df['sma_200'], 'BULL', 'BEAR')`
with `sma_200 = close.rolling(200).mean()`: the numpy comparison is `False`
whenever either operand is NaN, so such rows are labelled `BEAR`. -/
def identify_market_regime (close : Series) : List String :=
  (List.range close.length).map fun i =>
    match close.getD i none, (rolling_mean 200 close).getD i none with
    | some c, some m => if m < c then "BULL" else "BEAR"
    | _, _ => "BEAR"

theorem getD_map_range (f : ℕ → α) (n i : ℕ) (hi : i < n) (d : α) :
    (((List.range n).map f).getD i d) = f i := by
  rw [List.getD_eq_getElem?_getD, List.getElem?_map, List.getElem?_range hi]
  rfl

/-- C7 counterexample: on a 1-row close series the row has 0 prior
observations, yet the regime is the assigned label `BEAR` — not left
undefined as the claim states. -/
theorem identify_market_regime_counterexample :
    identify_market_regime [some 1] = ["BEAR"] ∧
    (rolling_mean 200 [some 1]).getD 0 none = none := by
  constructor <;> rfl

/-- C7 (amended): the 200-row trailing SMA is defined exactly on fully
observed 200-row windows, where it equals the window mean; on rows where both
close and SMA are defined the regime is `BULL` iff close strictly exceeds the
SMA and `BEAR` otherwise; rows where the SMA (or close) is undefined — in
particular every row before 200 observations — are labelled `BEAR`, not left
undefined. -/
theorem identify_market_regime_rule (close : Series) (i : ℕ) (hi : i < close.length) :
    (200 ≤ i + 1 →
      (rolling_mean 200 close).getD i none =
        (if ((((close.drop (i + 1 - 200)).take 200).filterMap id).length = 200) then
          some ((((close.drop (i + 1 - 200)).take 200).filterMap id).sum / 200)
        else none)) ∧
    (i + 1 < 200 → (rolling_mean 200 close).getD i none = none) ∧
    (∀ c m, close.getD i none = some c →
      (rolling_mean 200 close).getD i none = some m →
      (((identify_market_regime close).getD i "" = "BULL" ↔ m < c) ∧
       ((identify_market_regime close).getD i "" = "BEAR" ↔ ¬ m < c))) ∧
    ((rolling_mean 200 close).getD i none = none →
      (identify_market_regime close).getD i "" = "BEAR") ∧
    (close.getD i none = none →
      (identify_market_regime close).getD i "" = "BEAR") := by
  have hroll : (rolling_mean 200 close).getD i none =
      if 200 ≤ i + 1 then
        (if ((((close.drop (i + 1 - 200)).take 200).filterMap id).length = 200) then
          some ((((close.drop (i + 1 - 200)).take 200).filterMap id).sum / 200)
        else none)
      else none := by
    rw [rolling_mean, getD_map_range _ _ _ hi]
    norm_num
  have hreg : (identify_market_regime close).getD i "" =
      match close.getD i none, (rolling_mean 200 close).getD i none with
      | some c, some m => if m < c then "BULL" else "BEAR"
      | _, _ => "BEAR" := by
    rw [identify_market_regime, getD_map_range _ _ _ hi]
  refine ⟨fun h200 => by rw [hroll, if_pos h200], fun hlt => by rw [hroll, if_neg (by omega)],
    ?_, ?_, ?_⟩
  · intro c m hc hm
    rw [hreg, hc, hm]
    constructor
    · by_cases h : m < c <;> simp [h] <;> decide
    · by_cases h : m < c <;> simp [h] <;> decide
  · intro hm
    rw [hreg, hm]
    rcases close.getD i none with _ | c <;> rfl
  · intro hc
    rw [hreg, hc]

/-- Witness for C7's amended theorem at row 0 of a 1-row series: the SMA is
undefined (fewer than 200 observations) and the row is labelled `BEAR`. -/
theorem identify_market_regime_rule_witness :
    (0 < ([some 1] : Series).length ∧ 0 + 1 < 200) ∧
    ((rolling_mean 200 [some 1]).getD 0 none = none ∧
     (identify_market_regime [some 1]).getD 0 "" = "BEAR") :=
  ⟨⟨by decide, by decide⟩,
   ⟨(identify_market_regime_rule [some 1] 0 (by decide)).2.1 (by decide),
    (identify_market_regime_rule [some 1] 0 (by decide)).2.2.2.1
      ((identify_market_regime_rule [some 1] 0 (by decide)).2.1 (by decide))⟩⟩

/-! ### Liquidity quartile regimes (advanced_liquidity_analysis.py
lines 31-35) -/

/-- numpy/pandas linear-interpolation quantile of an ascending sample `v` at
`q = num/4`: position `p = (n-1) * num/4`, value
`v[⌊p⌋] + (p - ⌊p⌋) * (v[⌊p⌋+1] - v[⌊p⌋])` (with `k = 4p` and `f = ⌊p⌋`
computed in ℕ). -/
def quantileSorted (v : List ℚ) (num : ℕ) : ℚ :=
  let k := (v.length - 1) * num
  let f := k / 4
  let lo := v.getD f 0
  let hi := v.getD (f + 1) lo
  lo + ((k : ℚ) / 4 - (f : ℚ)) * (hi - lo)

/-- `pd.qcut(net_liquidity, q=4, labels=[...])`: quartile cut points are
computed from the full sample; with the default `duplicates='raise'`, any two
equal bin edges raise `ValueError` (modelled as `none`).  Otherwise each value
falls into the quartile interval `(e_{k-1}, e_k]` (lowest interval closed on
the left, and every value lies within the outer edges by construction). -/
def assign_liquidity_quartile (s : List ℚ) : Option (List String) :=
  let v := s.insertionSort (· ≤ ·)
  let e1 := quantileSorted v 1
  let e2 := quantileSorted v 2
  let e3 := quantileSorted v 3
  if quantileSorted v 0 < e1 ∧ e1 < e2 ∧ e2 < e3 ∧ e3 < quantileSorted v 4 then
    some (s.map fun x =>
      if x ≤ e1 then "Very_Tight"
      else if x ≤ e2 then "Tight"
      else if x ≤ e3 then "Loose"
      else "Very_Loose")
  else none

/-- C8 counterexample: the sample `[1,1,1,1,1,2,3,4]` has 4 distinct values,
yet its 0th and 25th percentile cut-points coincide (both 1), so `pd.qcut`
raises (`none`) — quartile assignment does not succeed on every distribution
with ≥ 4 distinct values. -/
theorem assign_liquidity_quartile_counterexample :
    ([1, 1, 1, 1, 1, 2, 3, 4] : List ℚ).dedup = [1, 2, 3, 4] ∧
    assign_liquidity_quartile [1, 1, 1, 1, 1, 2, 3, 4] = none := by
  constructor
  · decide
  · norm_num [assign_liquidity_quartile, quantileSorted, List.insertionSort,
      List.orderedInsert]

/-- C8 (amended): when the five quartile cut-points computed from the full
sample are pairwise distinct, quartile assignment succeeds and labels every
row with exactly one of `Very_Tight`, `Tight`, `Loose`, `Very_Loose` — the
four groups are mutually exclusive and cover all rows.  (With duplicate
cut-points the operation raises instead, and group sizes need not be equal to
within rounding when values repeat.) -/
theorem assign_liquidity_quartile_partition (s : List ℚ) (labels : List String)
    (h : assign_liquidity_quartile s = some labels) :
    labels.length = s.length ∧
    ∀ i, i < s.length →
      labels.getD i "" = "Very_Tight" ∨ labels.getD i "" = "Tight" ∨
      labels.getD i "" = "Loose" ∨ labels.getD i "" = "Very_Loose" := by
  rw [assign_liquidity_quartile] at h
  set v := s.insertionSort (· ≤ ·) with hv
  split_ifs at h with hedges
  · simp only [Option.some.injEq] at h
    subst h
    refine ⟨s.length_map _, fun i hi => ?_⟩
    have hval : (s.map fun x =>
        if x ≤ quantileSorted v 1 then "Very_Tight"
        else if x ≤ quantileSorted v 2 then "Tight"
        else if x ≤ quantileSorted v 3 then "Loose"
        else "Very_Loose").getD i "" =
        (fun x =>
          if x ≤ quantileSorted v 1 then "Very_Tight"
          else if x ≤ quantileSorted v 2 then "Tight"
          else if x ≤ quantileSorted v 3 then "Loose"
          else "Very_Loose") (s.getD i 0) := by
      rw [List.getD_eq_getElem?_getD, List.getElem?_map,
        List.getElem?_eq_getElem hi, List.getD_eq_getElem?_getD,
        List.getElem?_eq_getElem hi]
      rfl
    rw [hval]
    dsimp only
    split_ifs
    · exact Or.inl rfl
    · exact Or.inr (Or.inl rfl)
    · exact Or.inr (Or.inr (Or.inl rfl))
    · exact Or.inr (Or.inr (Or.inr rfl))

/-- Witness for C8's amended theorem on `[1,2,3,4]`, whose cut-points
`1 < 7/4 < 5/2 < 13/4 < 4` are distinct: every row is labelled and the labels
are the four quartile names. -/
theorem assign_liquidity_quartile_partition_witness :
    assign_liquidity_quartile [1, 2, 3, 4] =
      some ["Very_Tight", "Tight", "Loose", "Very_Loose"] ∧
    (["Very_Tight", "Tight", "Loose", "Very_Loose"] : List String).length =
      ([1, 2, 3, 4] : List ℚ).length ∧
    ∀ i, i < ([1, 2, 3, 4] : List ℚ).length →
      (["Very_Tight", "Tight", "Loose", "Very_Loose"] : List String).getD i "" =
          "Very_Tight" ∨
      (["Very_Tight", "Tight", "Loose", "Very_Loose"] : List String).getD i "" = "Tight" ∨
      (["Very_Tight", "Tight", "Loose", "Very_Loose"] : List String).getD i "" = "Loose" ∨
      (["Very_Tight", "Tight", "Loose", "Very_Loose"] : List String).getD i "" =
          "Very_Loose" := by
  have h : assign_liquidity_quartile [1, 2, 3, 4] =
      some ["Very_Tight", "Tight", "Loose", "Very_Loose"] := by
    norm_num [assign_liquidity_quartile, quantileSorted, List.insertionSort,
      List.orderedInsert]
  exact ⟨h, assign_liquidity_quartile_partition [1, 2, 3, 4] _ h⟩

/-! ### Backtest / feature row alignment (liquidity_ml_analyzer.py
lines 148-173 and 248-268) -/

/-- One engineered panel row (after symbol filtering): the selected feature
values and the realized weekly return, each possibly missing before the
trailing `dropna()`. -/
structure PanelRow where
  feats : List (Option ℚ)
  weekly_return : Option ℚ
deriving Inhabited, DecidableEq

/-- Whether a row survives the `dropna()` at the end of `engineer_features`
(line 70): no missing value anywhere in the row. -/
def rowComplete (r : PanelRow) : Bool :=
  r.feats.all Option.isSome && r.weekly_return.isSome

/-- `engineer_features(...)` as consumed downstream: the panel restricted to
complete rows. -/
def engineer_features (panel : List PanelRow) : List PanelRow :=
  panel.filter rowComplete

/-- `prepare_ml_data`'s feature matrix `X` (lines 165-171): the engineered
rows' feature values, after the residual NaN-row mask — which is kept
faithfully even though it is vacuous after `dropna`. -/
def prepare_ml_X (panel : List PanelRow) : List (List ℚ) :=
  (((engineer_features panel).map PanelRow.feats).filter
    (fun r => r.all Option.isSome)).map (fun r => r.filterMap id)

/-- `backtest_strategy`'s pairing (lines 248-259): probabilities are the
model's output over all of `X` (`proba` abstracts the trained classifier as a
function of a feature row); `backtest_df = df.iloc[-len(predictions):]` then
carries those probabilities row by row. -/
def backtest_rows (panel : List PanelRow) (proba : List ℚ → ℚ) :
    List (PanelRow × ℚ) :=
  let df := engineer_features panel
  let preds := (prepare_ml_X panel).map proba
  (df.drop (df.length - preds.length)).zip preds

theorem prepare_ml_X_eq (panel : List PanelRow) :
    prepare_ml_X panel =
      (engineer_features panel).map (fun r => r.feats.filterMap id) := by
  rw [prepare_ml_X]
  have hall : ∀ l ∈ (engineer_features panel).map PanelRow.feats,
      l.all Option.isSome = true := by
    intro l hl
    obtain ⟨r, hr, rfl⟩ := List.mem_map.1 hl
    have := (List.mem_filter.1 hr).2
    exact (Bool.and_elim_left (by simpa [rowComplete] using this))
  rw [List.filter_eq_self.2 hall, List.map_map]
  rfl

/-- C9: the backtest frame has exactly one row per engineered panel row, and
row `i` pairs panel row `i`'s realized weekly return with the probability the
model computes from that same row's feature values — no re-pairing of a
probability with a different row's return. -/
theorem backtest_row_alignment (panel : List PanelRow) (proba : List ℚ → ℚ)
    (i : ℕ) (hi : i < (backtest_rows panel proba).length) :
    (backtest_rows panel proba).length = (engineer_features panel).length ∧
    (backtest_rows panel proba).getD i default =
      ((engineer_features panel).getD i default,
        proba (((engineer_features panel).getD i default).feats.filterMap id)) := by
  have hX : (prepare_ml_X panel).map proba =
      (engineer_features panel).map (fun r => proba (r.feats.filterMap id)) := by
    rw [prepare_ml_X_eq, List.map_map]
    rfl
  have hlen : ((prepare_ml_X panel).map proba).length =
      (engineer_features panel).length := by
    rw [hX, List.length_map]
  have hbt : backtest_rows panel proba =
      (engineer_features panel).zip
        ((engineer_features panel).map (fun r => proba (r.feats.filterMap id))) := by
    rw [backtest_rows, hlen, Nat.sub_self, List.drop_zero, hX]
  have hlen2 : (backtest_rows panel proba).length =
      (engineer_features panel).length := by
    rw [hbt, List.length_zip, List.length_map, Nat.min_self]
  refine ⟨hlen2, ?_⟩
  have hi2 : i < (engineer_features panel).length := hlen2 ▸ hi
  have hzip : (backtest_rows panel proba)[i]? =
      some ((engineer_features panel).get ⟨i, hi2⟩,
        proba (((engineer_features panel).get ⟨i, hi2⟩).feats.filterMap id)) := by
    rw [hbt]
    apply List.getElem?_zip_eq_some.2
    refine ⟨List.getElem?_eq_getElem hi2, ?_⟩
    rw [List.getElem?_map, List.getElem?_eq_getElem hi2]
    rfl
  rw [List.getD_eq_getElem?_getD, hzip, List.getD_eq_getElem?_getD,
    List.getElem?_eq_getElem hi2]
  rfl

/-- Witness for C9 on a 3-row panel whose middle row has a missing feature
(dropped by `dropna`), with the probability function summing the features. -/
theorem backtest_row_alignment_witness :
    (0 < (backtest_rows
        [⟨[some 1, some 2], some 5⟩, ⟨[some 3, none], some 6⟩, ⟨[some 4, some 7], some 8⟩]
        (fun l => l.sum)).length) ∧
    ((backtest_rows
        [⟨[some 1, some 2], some 5⟩, ⟨[some 3, none], some 6⟩, ⟨[some 4, some 7], some 8⟩]
        (fun l => l.sum)).length =
      (engineer_features
        [⟨[some 1, some 2], some 5⟩, ⟨[some 3, none], some 6⟩,
          ⟨[some 4, some 7], some 8⟩]).length ∧
     (backtest_rows
        [⟨[some 1, some 2], some 5⟩, ⟨[some 3, none], some 6⟩, ⟨[some 4, some 7], some 8⟩]
        (fun l => l.sum)).getD 0 default =
      ((engineer_features
          [⟨[some 1, some 2], some 5⟩, ⟨[some 3, none], some 6⟩,
            ⟨[some 4, some 7], some 8⟩]).getD 0 default,
        (fun l : List ℚ => l.sum)
          (((engineer_features
              [⟨[some 1, some 2], some 5⟩, ⟨[some 3, none], some 6⟩,
                ⟨[some 4, some 7], some 8⟩]).getD 0 default).feats.filterMap id))) :=
  ⟨by decide,
   backtest_row_alignment
     [⟨[some 1, some 2], some 5⟩, ⟨[some 3, none], some 6⟩, ⟨[some 4, some 7], some 8⟩]
     (fun l => l.sum) 0 (by decide)⟩

/-! ### Shared scaler object across trained models (liquidity_ml_analyzer.py
lines 16-19, 204-206, 224-230, 252-255) -/

/-- The analyzer's state: `__init__` creates a single `StandardScaler` stored
in `self.scaler`; `self.models[sym]` stores `{'scaler': self.scaler, ...}` —
a reference to that one shared object, never a copy, so the artifact's scaler
is whatever the shared object currently holds. `trainedSymbols` models the
keys of `self.models`. -/
structure AnalyzerState where
  scaler : Scaler
  trainedSymbols : List String

/-- `train_model(sym)` (lines 204-230): `self.scaler.fit_transform(X_train)`
refits the shared scaler in place on `sym`'s chronological training subset,
and the artifact stored for `sym` references `self.scaler`. -/
def train_model_state (st : AnalyzerState) (sym : String) (X : List (List ℚ)) :
    AnalyzerState :=
  { scaler := fitScaler (train_test_split X).1
    trainedSymbols := sym :: st.trainedSymbols }

/-- The scaler parameters `backtest_strategy(sym)` uses at line 254
(`self.models[sym]['scaler'].transform(X)`): dereferencing the stored alias
yields the analyzer's current shared scaler state. -/
def backtest_scaler (st : AnalyzerState) (sym : String) : Option Scaler :=
  if sym ∈ st.trainedSymbols then some st.scaler else none

/-- C10: after `train_model(A)` then `train_model(B)`, the scaler reached
through A's stored artifact holds the parameters fitted on B's training data;
whenever those differ from the parameters fitted on A's training data, a
subsequent `backtest_strategy(A)` therefore scales with B's parameters, not
with the ones fitted when A was trained. -/
theorem shared_scaler_aliasing (st : AnalyzerState) (A B : String)
    (XA XB : List (List ℚ)) :
    backtest_scaler (train_model_state (train_model_state st A XA) B XB) A =
      some (fitScaler (train_test_split XB).1) ∧
    (fitScaler (train_test_split XA).1 ≠ fitScaler (train_test_split XB).1 →
      backtest_scaler (train_model_state (train_model_state st A XA) B XB) A ≠
        some (fitScaler (train_test_split XA).1)) := by
  have hmem : A ∈ (train_model_state (train_model_state st A XA) B XB).trainedSymbols := by
    simp [train_model_state]
  have h : backtest_scaler (train_model_state (train_model_state st A XA) B XB) A =
      some (fitScaler (train_test_split XB).1) := by
    rw [backtest_scaler, if_pos hmem]
    rfl
  refine ⟨h, fun hne hcontra => ?_⟩
  rw [h] at hcontra
  exact hne (Option.some.inj hcontra).symm

/-- Witness for C10: A's data is all zeros, B's all tens; the two fitted
means differ, and A's artifact ends up with B's parameters. -/
theorem shared_scaler_aliasing_witness :
    (fitScaler (train_test_split ([[0], [0], [0]] : List (List ℚ))).1 ≠
      fitScaler (train_test_split ([[10], [10], [10]] : List (List ℚ))).1) ∧
    (backtest_scaler
        (train_model_state
          (train_model_state ⟨⟨[], []⟩, []⟩ "SPX" ([[0], [0], [0]] : List (List ℚ)))
          "NDX" ([[10], [10], [10]] : List (List ℚ))) "SPX" =
      some (fitScaler (train_test_split ([[10], [10], [10]] : List (List ℚ))).1) ∧
     backtest_scaler
        (train_model_state
          (train_model_state ⟨⟨[], []⟩, []⟩ "SPX" ([[0], [0], [0]] : List (List ℚ)))
          "NDX" ([[10], [10], [10]] : List (List ℚ))) "SPX" ≠
      some (fitScaler (train_test_split ([[0], [0], [0]] : List (List ℚ))).1)) := by
  have hne : fitScaler (train_test_split ([[0], [0], [0]] : List (List ℚ))).1 ≠
      fitScaler (train_test_split ([[10], [10], [10]] : List (List ℚ))).1 := by
    have h0 : (fitScaler (train_test_split ([[0], [0], [0]] : List (List ℚ))).1).means =
        [0] := by
      norm_num [fitScaler, train_test_split, column, mean, split_idx, floorLog2,
        List.take, List.range_succ, List.range_zero]
    have h10 : (fitScaler (train_test_split ([[10], [10], [10]] : List (List ℚ))).1).means =
        [10] := by
      norm_num [fitScaler, train_test_split, column, mean, split_idx, floorLog2,
        List.take, List.range_succ, List.range_zero]
    intro hcontra
    rw [hcontra, h10] at h0
    exact absurd (List.cons.injEq _ _ _ _ ▸ h0) (by norm_num)
  have h := shared_scaler_aliasing ⟨⟨[], []⟩, []⟩ "SPX" "NDX"
    ([[0], [0], [0]] : List (List ℚ)) ([[10], [10], [10]] : List (List ℚ))
  exact ⟨hne, h.1, h.2 hne⟩

end FedWatch
